import Mathlib

/-!
Shallow embedding of the metadata index and storage coordinator of
python-cloud-server (src/python_cloud_server/metadata.py and server.py),
together with theorems settling the specification claims.

Modelling conventions:
- Python dicts (which preserve insertion order) are modelled as association
  lists with fresh keys appended at the end and in-place replacement of
  existing keys.
- The filesystem is modelled explicitly: the metadata snapshot area is a pair
  of optional file contents (canonical file and temp file), the storage root
  is an association list from relative path to file size.
- I/O failures (temp-file write, disk rename, unlink) are exogenous booleans
  threaded into each operation: true means the corresponding system call
  succeeds, false means it raises.
- Timestamps are opaque strings supplied by the caller (the value of
  FileMetadata.current_timestamp at that moment).
-/

/-- One metadata record, from models.py FileMetadata. -/
structure FileMetadata where
  filepath : String
  mime_type : String
  size : Nat
  tags : List String
  uploaded_at : String
  updated_at : String
deriving DecidableEq, Repr

/-- Python exception kinds raised by MetadataManager operations. -/
inductive PyErr where
  | valueError
  | keyError
  | ioError
deriving DecidableEq, Repr

/-- Response codes used by the server handlers (python_template_server ResponseCode). -/
inductive RC where
  | OK
  | CONFLICT
  | BAD_REQUEST
  | NOT_FOUND
  | INTERNAL_SERVER_ERROR
deriving DecidableEq, Repr

deriving instance DecidableEq for Except

/-- Lookup in an insertion-ordered association list (Python dict read d[k] / d.get(k)). -/
def alGet {α : Type} : List (String × α) → String → Option α
  | [], _ => none
  | (k, v) :: rest, k0 => if k = k0 then some v else alGet rest k0

/-- Membership test (Python: k in d). -/
def hasKey {α : Type} (d : List (String × α)) (k : String) : Bool :=
  (alGet d k).isSome

/-- Assignment d[k] = v: replaces the value in place if the key exists,
otherwise appends the new binding at the end (dict insertion order). -/
def alSet {α : Type} : List (String × α) → String → α → List (String × α)
  | [], k0, v0 => [(k0, v0)]
  | (k, v) :: rest, k0, v0 =>
    if k = k0 then (k0, v0) :: rest else (k, v) :: alSet rest k0 v0

/-- Removal d.pop(k) / del d[k]: removes the first binding of the key. -/
def alPop {α : Type} : List (String × α) → String → List (String × α)
  | [], _ => []
  | (k, v) :: rest, k0 => if k = k0 then rest else (k, v) :: alPop rest k0

/-- The in-memory mapping of MetadataManager. -/
abbrev Dict := List (String × FileMetadata)

/-- State of a MetadataManager together with the snapshot area of the
filesystem: mem is the in-memory dict self dot metadata, canonical is the
content of the metadata.json file (none when the file is absent), temp is the
content of the metadata.tmp file. -/
structure MetaState where
  mem : Dict
  canonical : Option Dict
  temp : Option Dict
deriving DecidableEq, Repr

/-- Writing the full serialized snapshot of the mapping into the temp file
(metadata.py lines 44-47). writeOk = false models an exception raised during
the write. -/
def write_temp (st : MetaState) (writeOk : Bool) : Except PyErr MetaState :=
  if writeOk then Except.ok { st with temp := some st.mem }
  else Except.error PyErr.ioError

/-- The single atomic rename of the temp file onto the canonical snapshot path
(metadata.py line 48, temp_filepath.replace). -/
def replace_temp (st : MetaState) : MetaState :=
  match st.temp with
  | some snap => { st with canonical := some snap, temp := none }
  | none => st

/-- Cleanup in the except block of save: unlink the temp file if it exists
(metadata.py lines 53-54). -/
def remove_temp (st : MetaState) : MetaState :=
  { st with temp := none }

/-- MetadataManager save_metadata_atomic (metadata.py lines 36-55): write the
full serialized snapshot to a temp file, then atomically rename it onto the
canonical path; on a write failure, unlink the temp file and re-raise. -/
def save_metadata_atomic (st : MetaState) (writeOk : Bool) : Except PyErr Unit × MetaState :=
  match write_temp st writeOk with
  | Except.ok st1 => (Except.ok (), replace_temp st1)
  | Except.error e => (Except.error e, remove_temp st)

/-- MetadataManager file_exists (metadata.py lines 75-81). -/
def file_exists (st : MetaState) (filepath : String) : Bool :=
  hasKey st.mem filepath

/-- MetadataManager get_file_entry (metadata.py lines 83-92); the
model_validate round trip of the stored record is the identity here. -/
def get_file_entry (st : MetaState) (filepath : String) : Option FileMetadata :=
  alGet st.mem filepath

/-- MetadataManager add_file_entry (metadata.py lines 94-108): raises
ValueError when the path is already present, otherwise stores the record and
persists. -/
def add_file_entry (st : MetaState) (r : FileMetadata) (writeOk : Bool) :
    Except PyErr Unit × MetaState :=
  if hasKey st.mem r.filepath then (Except.error PyErr.valueError, st)
  else save_metadata_atomic { st with mem := alSet st.mem r.filepath r } writeOk

/-- MetadataManager delete_file_entry (metadata.py lines 110-124): raises
KeyError when the path is absent, otherwise removes the binding and persists. -/
def delete_file_entry (st : MetaState) (filepath : String) (writeOk : Bool) :
    Except PyErr Unit × MetaState :=
  if hasKey st.mem filepath then
    save_metadata_atomic { st with mem := alPop st.mem filepath } writeOk
  else (Except.error PyErr.keyError, st)

/-- The updates dict passed to update_file_entry: every FileMetadata field may
be present (dict.update overwrites present keys). The server only ever passes
tags and filepath. -/
structure UpdateFields where
  filepath : Option String
  mime_type : Option String
  size : Option Nat
  tags : Option (List String)
  uploaded_at : Option String
  updated_at : Option String
deriving DecidableEq, Repr

/-- An updates dict holding only tags and optionally filepath, as built by
server.py patch_file lines 379-383. -/
def tagsAndPathUpdate (tags : List String) (fp : Option String) : UpdateFields :=
  { filepath := fp, mime_type := none, size := none, tags := some tags,
    uploaded_at := none, updated_at := none }

/-- metadata_dict = record.model_dump(); metadata_dict.update(updates);
FileMetadata.model_validate(metadata_dict) (metadata.py lines 139-141). -/
def applyUpdates (m : FileMetadata) (u : UpdateFields) : FileMetadata :=
  { filepath := u.filepath.getD m.filepath,
    mime_type := u.mime_type.getD m.mime_type,
    size := u.size.getD m.size,
    tags := u.tags.getD m.tags,
    uploaded_at := u.uploaded_at.getD m.uploaded_at,
    updated_at := u.updated_at.getD m.updated_at }

/-- MetadataManager update_file_entry (metadata.py lines 126-149): raises
KeyError when the path is absent; merges the updates dict into the record,
refreshes updated_at (now is the current timestamp), re-keys the record when
the updates contain a truthy filepath differing from the key (Python
truthiness: None and the empty string do not trigger re-keying), then
persists. On a persistence failure the in-memory mapping keeps the mutation. -/
def update_file_entry (st : MetaState) (filepath : String) (u : UpdateFields)
    (now : String) (writeOk : Bool) : Except PyErr Unit × MetaState :=
  match alGet st.mem filepath with
  | none => (Except.error PyErr.keyError, st)
  | some old =>
    let merged := { applyUpdates old u with updated_at := now }
    let mem1 := alSet st.mem filepath merged
    let mem2 :=
      match u.filepath with
      | some nf => if nf ≠ "" ∧ nf ≠ filepath then alSet (alPop mem1 filepath) nf merged else mem1
      | none => mem1
    save_metadata_atomic { st with mem := mem2 } writeOk

/-- The tag filter of list_files: Python "tag is None or tag in data.tags". -/
def tagMatches (tag : Option String) (d : FileMetadata) : Bool :=
  match tag with
  | none => true
  | some t => d.tags.contains t

/-- Descending comparison used by the sort in list_files: a stays before b
when the uploaded_at of b is at most that of a. Python list.sort with a key
and reverse set is a stable sort for exactly this relation. -/
def byUploadedDesc (a b : FileMetadata) : Prop :=
  b.uploaded_at ≤ a.uploaded_at

instance : DecidableRel byUploadedDesc :=
  fun a b => inferInstanceAs (Decidable (b.uploaded_at ≤ a.uploaded_at))

instance : IsTotal FileMetadata byUploadedDesc :=
  ⟨fun a b => le_total b.uploaded_at a.uploaded_at⟩

instance : IsTrans FileMetadata byUploadedDesc :=
  ⟨fun _ _ _ hab hbc => le_trans hbc hab⟩

/-- MetadataManager list_files (metadata.py lines 151-173): filter by tag,
sort by uploaded_at descending (a stable sort; Python Timsort and insertion
sort agree on every input for the same stable order), then slice with
files[offset : offset + limit]. -/
def list_files (st : MetaState) (tag : Option String) (offset limit : Nat) :
    List FileMetadata :=
  let files := (st.mem.map Prod.snd).filter (tagMatches tag)
  let sorted := List.insertionSort byUploadedDesc files
  (sorted.drop offset).take limit

/-- One mutating MetadataManager call, used to quantify over the three
mutating operations. -/
inductive MetaOp where
  | add (r : FileMetadata)
  | del (p : String)
  | upd (p : String) (u : UpdateFields) (now : String)
deriving Repr

/-- Dispatch of one mutating call with its persistence outcome. -/
def runMetaOp (st : MetaState) (op : MetaOp) (writeOk : Bool) :
    Except PyErr Unit × MetaState :=
  match op with
  | MetaOp.add r => add_file_entry st r writeOk
  | MetaOp.del p => delete_file_entry st p writeOk
  | MetaOp.upd p u now => update_file_entry st p u now writeOk

/-- Whether the guard of the operation passes, i.e. the call reaches the
persistence step instead of raising ValueError or KeyError. -/
def opGuardOk (st : MetaState) : MetaOp → Bool
  | MetaOp.add r => !hasKey st.mem r.filepath
  | MetaOp.del p => hasKey st.mem p
  | MetaOp.upd p _ _ => hasKey st.mem p

/-- Run a sequence of mutating calls, each with its persistence outcome,
keeping the state an exception leaves behind. -/
def runOps (st : MetaState) : List (MetaOp × Bool) → MetaState
  | [] => st
  | (op, ok) :: rest => runOps (runMetaOp st op ok).2 rest

/-- The storage root: relative file path mapped to file size (the coordinator
never inspects file bytes beyond their count). -/
abbrev Disk := List (String × Nat)

/-- Whether a regular file exists at the path under the storage root. -/
def diskHas (d : Disk) (p : String) : Bool :=
  hasKey d p

/-- Path.rename old new on POSIX: moves the file, replacing any file already
at the destination. Callers of this model guard on the source existing. -/
def diskRename (d : Disk) (old new_ : String) : Disk :=
  match alGet d old with
  | some sz => alSet (alPop d old) new_ sz
  | none => d

/-- Configuration fields of StorageConfig consumed by the embedded handlers
(models.py StorageConfig). -/
structure StorageConfig where
  max_file_size_mb : Nat
  max_tags_per_file : Nat
  max_tag_length : Nat
deriving DecidableEq, Repr

/-- BYTES_TO_MB from python_template_server.constants: bytes per megabyte. -/
def bytesPerMB : Nat := 1024 * 1024

/-- The configured upload cap in bytes (server.py line 223). -/
def maxFileSizeBytes (cfg : StorageConfig) : Nat :=
  cfg.max_file_size_mb * bytesPerMB

/-- Combined state the coordinator operates on. -/
structure ServerState where
  meta : MetaState
  disk : Disk
deriving DecidableEq, Repr

/-- PostFileResponse fields relevant to the core (models.py). -/
structure PostResp where
  code : RC
  filepath : String
  size : Nat
deriving DecidableEq, Repr

/-- PatchFileResponse fields relevant to the core (models.py). The tags list
the handler returns enumerates a Python set in unspecified order, so the model
carries the set itself. -/
structure PatchResp where
  code : RC
  success : Bool
  filepath : String
  tags : Finset String
deriving DecidableEq

/-- DeleteFileResponse fields relevant to the core (models.py). -/
structure DeleteResp where
  code : RC
  success : Bool
  filepath : String
deriving DecidableEq, Repr

/-- PatchFileRequest (models.py). -/
structure PatchReq where
  new_filepath : Option String
  add_tags : List String
  remove_tags : List String
deriving DecidableEq, Repr

/-- MetadataManager construction, metadata.py load_metadata (lines 57-73):
when the canonical snapshot file is absent, start from an empty mapping and
immediately persist an empty snapshot; otherwise parse the snapshot into the
in-memory mapping (the snapshot content is already structured here, so parsing
cannot fail; a malformed file is outside this model). -/
def load_metadata (canonical : Option Dict) (writeOk : Bool) : Except PyErr MetaState :=
  match canonical with
  | none =>
    match save_metadata_atomic { mem := [], canonical := none, temp := none } writeOk with
    | (Except.ok _, st) => Except.ok st
    | (Except.error e, _) => Except.error e
  | some d => Except.ok { mem := d, canonical := some d, temp := none }

/-- CloudServer construction (server.py lines 31-48): after the storage
directory setup it only constructs the MetadataManager, which loads the
snapshot. No walk of the storage root and no disk/index reconciliation
happens anywhere in the constructor; the storage root is passed through
untouched and uninspected. -/
def server_init (disk : Disk) (canonical : Option Dict) (writeOk : Bool) :
    Except PyErr ServerState :=
  match load_metadata canonical writeOk with
  | Except.ok m => Except.ok { meta := m, disk := disk }
  | Except.error e => Except.error e

/-- Outcome of the upload streaming loop of post_file. -/
inductive UploadOutcome where
  | done (size : Nat)
  | tooBig (size : Nat)
deriving DecidableEq, Repr

/-- The streaming loop of post_file (server.py lines 221-234): chunks are the
sizes of the successive reads; a read of size zero ends the loop (Python
walrus while on the chunk). The running total is checked against the cap
before the chunk is written; the first total exceeding the cap aborts the
upload at once. -/
def uploadLoop (cap acc : Nat) : List Nat → UploadOutcome
  | [] => UploadOutcome.done acc
  | c :: rest =>
    if c = 0 then UploadOutcome.done acc
    else if cap < acc + c then UploadOutcome.tooBig (acc + c)
    else uploadLoop cap (acc + c) rest

/-- file.content_type or application/octet-stream, then extension-based
guessing when still generic (server.py lines 208-212). The result of
mimetypes.guess_type is the exogenous argument guessed. -/
def resolveMime (content_type : Option String) (guessed : Option String) : String :=
  let m := match content_type with
    | some s => if s = "" then "application/octet-stream" else s
    | none => "application/octet-stream"
  if m = "application/octet-stream" then
    match guessed with
    | some g => g
    | none => m
  else m

/-- CloudServer post_file (server.py lines 185-275). writeOk = false models an
exception from the streaming write (placed before any byte is kept); saveOk is
the persistence outcome of the metadata add. now is the current timestamp. -/
def post_file (st : ServerState) (cfg : StorageConfig) (filepath : String)
    (content_type guessed : Option String) (chunks : List Nat)
    (writeOk saveOk : Bool) (now : String) : PostResp × ServerState :=
  if hasKey st.meta.mem filepath then
    ({ code := RC.CONFLICT, filepath := filepath, size := 0 }, st)
  else
    let mime := resolveMime content_type guessed
    if writeOk then
      match uploadLoop (maxFileSizeBytes cfg) 0 chunks with
      | UploadOutcome.tooBig n =>
        -- the partial file is unlinked the moment the total exceeds the cap
        ({ code := RC.BAD_REQUEST, filepath := filepath, size := n },
         { st with disk := alPop st.disk filepath })
      | UploadOutcome.done n =>
        let disk1 := alSet st.disk filepath n
        let r : FileMetadata :=
          { filepath := filepath, mime_type := mime, size := n, tags := [],
            uploaded_at := now, updated_at := now }
        match add_file_entry st.meta r saveOk with
        | (Except.ok _, m1) =>
          ({ code := RC.OK, filepath := filepath, size := n },
           { meta := m1, disk := disk1 })
        | (Except.error _, m1) =>
          -- metadata persistence failed: unlink the just-written file
          ({ code := RC.INTERNAL_SERVER_ERROR, filepath := filepath, size := n },
           { meta := m1, disk := alPop disk1 filepath })
    else
      ({ code := RC.INTERNAL_SERVER_ERROR, filepath := filepath, size := 0 },
       { st with disk := alPop st.disk filepath })

/-- The tag-set computation of patch_file (server.py lines 302-317): add each
requested tag unless its length exceeds the configured maximum (such tags are
skipped), then discard each requested removal. -/
def computeNewTags (cfg : StorageConfig) (current : Finset String)
    (add_tags remove_tags : List String) : Finset String :=
  remove_tags.foldl Finset.erase
    (add_tags.foldl
      (fun s t => if t.length ≤ cfg.max_tag_length then insert t s else s) current)

/-- Python list(new_tags) enumerates a set in unspecified order; the model
picks the canonical sorted enumeration of the finite set. -/
def enumTags (s : Finset String) : List String :=
  s.sort (fun a b => a ≤ b)

/-- Steps 4-5 of patch_file (server.py lines 376-405): one update_file_entry
call carrying the new tags and, when a rename happened, the new path; on a
failure of that call, when a rename happened, a best-effort rename back of the
disk file (its own failure is swallowed), then an internal error carrying the
original path and tags. -/
def patchFinish (meta0 : MetaState) (disk1 : Disk) (filepath final : String)
    (new_tags current_tags : Finset String) (rollbackOk saveOk : Bool)
    (now : String) : PatchResp × ServerState :=
  let u := tagsAndPathUpdate (enumTags new_tags) (if final ≠ filepath then some final else none)
  match update_file_entry meta0 filepath u now saveOk with
  | (Except.ok _, m1) =>
    ({ code := RC.OK, success := true, filepath := final, tags := new_tags },
     { meta := m1, disk := disk1 })
  | (Except.error _, m1) =>
    let disk2 :=
      if final ≠ filepath then
        if rollbackOk ∧ diskHas disk1 final then diskRename disk1 final filepath else disk1
      else disk1
    ({ code := RC.INTERNAL_SERVER_ERROR, success := false, filepath := filepath,
       tags := current_tags },
     { meta := m1, disk := disk2 })

/-- CloudServer patch_file (server.py lines 277-415). renameOk models the disk
rename not raising (a rename of a path absent from disk always raises);
rollbackOk models the best-effort rename back; saveOk is the persistence
outcome of the update; now is the current timestamp. -/
def patch_file (st : ServerState) (cfg : StorageConfig) (filepath : String)
    (req : PatchReq) (renameOk rollbackOk saveOk : Bool) (now : String) :
    PatchResp × ServerState :=
  match alGet st.meta.mem filepath with
  | none =>
    ({ code := RC.NOT_FOUND, success := false, filepath := filepath, tags := ∅ }, st)
  | some current_metadata =>
    let current_tags : Finset String := current_metadata.tags.toFinset
    let new_tags := computeNewTags cfg current_tags req.add_tags req.remove_tags
    if cfg.max_tags_per_file < new_tags.card then
      ({ code := RC.BAD_REQUEST, success := false, filepath := filepath,
         tags := current_tags }, st)
    else
      -- Python: if patch_request.new_filepath: (None and the empty string are falsy)
      match req.new_filepath with
      | some nf =>
        if nf ≠ "" then
          if hasKey st.meta.mem nf then
            ({ code := RC.CONFLICT, success := false, filepath := filepath,
               tags := current_tags }, st)
          else if renameOk ∧ diskHas st.disk filepath then
            patchFinish st.meta (diskRename st.disk filepath nf) filepath nf
              new_tags current_tags rollbackOk saveOk now
          else
            ({ code := RC.INTERNAL_SERVER_ERROR, success := false, filepath := filepath,
               tags := current_tags }, st)
        else
          patchFinish st.meta st.disk filepath filepath new_tags current_tags
            rollbackOk saveOk now
      | none =>
        patchFinish st.meta st.disk filepath filepath new_tags current_tags
          rollbackOk saveOk now

/-- CloudServer delete_file (server.py lines 417-479). unlinkOk models the
disk unlink not raising; saveOk is the persistence outcome of the metadata
delete. -/
def delete_file (st : ServerState) (filepath : String) (unlinkOk saveOk : Bool) :
    DeleteResp × ServerState :=
  if hasKey st.meta.mem filepath then
    -- delete the physical file, tolerating an already-absent file
    let removal : Option Disk :=
      if diskHas st.disk filepath then
        if unlinkOk then some (alPop st.disk filepath) else none
      else some st.disk
    match removal with
    | none =>
      ({ code := RC.INTERNAL_SERVER_ERROR, success := false, filepath := filepath }, st)
    | some disk1 =>
      match delete_file_entry st.meta filepath saveOk with
      | (Except.ok _, m1) =>
        ({ code := RC.OK, success := true, filepath := filepath },
         { meta := m1, disk := disk1 })
      | (Except.error _, m1) =>
        ({ code := RC.INTERNAL_SERVER_ERROR, success := false, filepath := filepath },
         { meta := m1, disk := disk1 })
  else
    ({ code := RC.NOT_FOUND, success := false, filepath := filepath }, st)

-- Example states used by concrete counterexamples and witnesses.

/-- A plain record at path a. -/
def recA : FileMetadata :=
  { filepath := "a", mime_type := "text/plain", size := 3, tags := [],
    uploaded_at := "t0", updated_at := "t0" }

/-- A plain record at path b.txt. -/
def recB : FileMetadata :=
  { filepath := "b.txt", mime_type := "text/plain", size := 7, tags := [],
    uploaded_at := "t0", updated_at := "t0" }

/-- A storage root holding one regular file a.txt of five bytes. -/
def c1Disk : Disk := [("a.txt", 5)]

/-- A persisted snapshot holding only an entry for b.txt, whose file is not on
disk. -/
def c1Snap : Dict := [("b.txt", recB)]

/-- A metadata state holding exactly recA, snapshot in sync. -/
def stA : MetaState :=
  { mem := [("a", recA)], canonical := some [("a", recA)], temp := none }

/-- The default storage configuration values of models.py StorageConfig. -/
def defCfg : StorageConfig :=
  { max_file_size_mb := 100, max_tags_per_file := 10, max_tag_length := 50 }

/-- Keys of an association list, in insertion order. -/
def alKeys {α : Type} (d : List (String × α)) : List String :=
  d.map Prod.fst

-- Further definitions used by the claims on the handlers.

/-- The cumulative byte totals after each successive read of the stream; the
stream is consumed up to the first empty read. -/
def cumSums (acc : Nat) : List Nat → List Nat
  | [] => []
  | c :: rest => (acc + c) :: cumSums (acc + c) rest

/-- A server with an empty index and an empty storage root. -/
def emptyServer : ServerState :=
  { meta := { mem := [], canonical := some [], temp := none }, disk := [] }

-- Definitions for the reachable-state invariant of claim C10.

/-- Key-record agreement: every key of a mapping stores a record whose
filepath field equals that key. -/
def KeysAgree (mem : Dict) : Prop :=
  ∀ p r, alGet mem p = some r → r.filepath = p

/-- Strengthened invariant: key agreement together with distinct keys (a
Python dict always has distinct keys; the model maintains it explicitly). -/
def MemInv (mem : Dict) : Prop :=
  KeysAgree mem ∧ (alKeys mem).Nodup

/-- An operation is benign when any requested filepath change is a nonempty
string (Python truthiness makes an empty-string new path update the stored
record without re-keying it). -/
def goodOp : MetaOp → Prop
  | MetaOp.upd _ u _ => u.filepath = none ∨ ∃ s, u.filepath = some s ∧ s ≠ ""
  | _ => True

/-- A fresh manager state over an empty snapshot. -/
def st0 : MetaState := { mem := [], canonical := some [], temp := none }

/-- An updates dict that requests the empty string as the new path. -/
def emptyPathUpdate : UpdateFields :=
  { filepath := some "", mime_type := none, size := none, tags := none,
    uploaded_at := none, updated_at := none }

/-- The record left stored under key a by the C10 counterexample run. -/
def recEmptyPath : FileMetadata := { recA with filepath := "", updated_at := "t1" }

/-- Add a record at path a, then update it requesting the empty string as new
path: the guard new_filepath and new_filepath differing from the key skips
re-keying, yet the stored record now carries the empty filepath. -/
def c10Ops : List (MetaOp × Bool) :=
  [(MetaOp.add recA, true), (MetaOp.upd "a" emptyPathUpdate "t1", true)]

-- Concrete states for the patch-related claims.

/-- A server state holding recA in index, snapshot and disk. -/
def srvA : ServerState := { meta := stA, disk := [("a", 3)] }

/-- A record carrying one tag x. -/
def recT : FileMetadata :=
  { filepath := "t.txt", mime_type := "text/plain", size := 1, tags := ["x"],
    uploaded_at := "t0", updated_at := "t0" }

/-- A second plain record. -/
def recU : FileMetadata :=
  { filepath := "u.txt", mime_type := "text/plain", size := 2, tags := [],
    uploaded_at := "t0", updated_at := "t0" }

/-- A server holding recT alone. -/
def srvT : ServerState :=
  { meta := { mem := [("t.txt", recT)], canonical := some [("t.txt", recT)],
              temp := none },
    disk := [("t.txt", 1)] }

/-- A server holding recT and recU. -/
def srv2 : ServerState :=
  { meta := { mem := [("t.txt", recT), ("u.txt", recU)],
              canonical := some [("t.txt", recT), ("u.txt", recU)], temp := none },
    disk := [("t.txt", 1), ("u.txt", 2)] }

/-- A tag of fifty-one characters, one over the default maximum length. -/
def longTag : String := String.mk (List.replicate 51 'a')

/-- A pure rename request from a to b. -/
def renameReq : PatchReq := { new_filepath := some "b", add_tags := [], remove_tags := [] }

-- Concrete index used by the list_files witness.

/-- First uploaded record, tagged x. -/
def recN1 : FileMetadata :=
  { filepath := "f1", mime_type := "m", size := 1, tags := ["x"],
    uploaded_at := "2024-01-01", updated_at := "2024-01-01" }

/-- Latest uploaded record, untagged. -/
def recN2 : FileMetadata :=
  { filepath := "f2", mime_type := "m", size := 2, tags := [],
    uploaded_at := "2024-03-01", updated_at := "2024-03-01" }

/-- Middle uploaded record, tagged x. -/
def recN3 : FileMetadata :=
  { filepath := "f3", mime_type := "m", size := 3, tags := ["x"],
    uploaded_at := "2024-02-01", updated_at := "2024-02-01" }

/-- An index holding the three records in insertion order f1, f2, f3. -/
def st9 : MetaState :=
  { mem := [("f1", recN1), ("f2", recN2), ("f3", recN3)],
    canonical := some [("f1", recN1), ("f2", recN2), ("f3", recN3)],
    temp := none }

-- Association-list lemmas.

theorem alGet_set_self {α : Type} (d : List (String × α)) (k : String) (v : α) :
    alGet (alSet d k v) k = some v := by
  induction d with
  | nil => simp [alSet, alGet]
  | cons hd tl ih =>
    obtain ⟨k1, v1⟩ := hd
    by_cases h : k1 = k
    · simp [alSet, alGet, h]
    · simp [alSet, alGet, h, ih]

theorem alGet_set_ne {α : Type} (d : List (String × α)) (k k' : String) (v : α)
    (h : k' ≠ k) : alGet (alSet d k v) k' = alGet d k' := by
  have hkk : ¬ k = k' := fun hh => h hh.symm
  induction d with
  | nil => simp [alSet, alGet, hkk]
  | cons hd tl ih =>
    obtain ⟨k1, v1⟩ := hd
    by_cases hk : k1 = k
    · subst hk
      simp [alSet, alGet, hkk]
    · simp [alSet, alGet, hk, ih]

theorem alGet_pop_ne {α : Type} (d : List (String × α)) (k k' : String)
    (h : k' ≠ k) : alGet (alPop d k) k' = alGet d k' := by
  induction d with
  | nil => simp [alPop]
  | cons hd tl ih =>
    obtain ⟨k1, v1⟩ := hd
    by_cases hk : k1 = k
    · subst hk
      have hkk : ¬ k1 = k' := fun hh => h (hh.symm)
      simp [alPop, alGet, hkk]
    · simp [alPop, alGet, hk, ih]

theorem alGet_isSome_iff {α : Type} (d : List (String × α)) (k : String) :
    (alGet d k).isSome = true ↔ k ∈ alKeys d := by
  induction d with
  | nil => simp [alGet, alKeys]
  | cons hd tl ih =>
    obtain ⟨k1, v1⟩ := hd
    by_cases h : k1 = k
    · subst h
      simp [alGet, alKeys]
    · have hne : ¬ k = k1 := fun hh => h hh.symm
      simp only [alKeys, List.map_cons, List.mem_cons]
      simp only [alKeys] at ih
      simp [alGet, h, ih, hne]

theorem alGet_eq_none_of_not_mem {α : Type} (d : List (String × α)) (k : String)
    (h : k ∉ alKeys d) : alGet d k = none := by
  have h2 := (alGet_isSome_iff d k).not.mpr h
  simpa [Option.not_isSome_iff_eq_none] using h2

theorem alKeys_pop_sublist {α : Type} (d : List (String × α)) (k : String) :
    List.Sublist (alKeys (alPop d k)) (alKeys d) := by
  induction d with
  | nil => simp [alPop]
  | cons hd tl ih =>
    obtain ⟨k1, v1⟩ := hd
    by_cases h : k1 = k
    · have h2 := List.sublist_cons_self k1 (alKeys tl)
      simp only [alPop, if_pos h, alKeys] at h2 ⊢
      exact h2
    · simpa [alPop, alKeys, h] using ih.cons₂ k1

theorem alGet_pop_self {α : Type} (d : List (String × α)) (k : String)
    (h : (alKeys d).Nodup) : alGet (alPop d k) k = none := by
  induction d with
  | nil => simp [alPop, alGet]
  | cons hd tl ih =>
    obtain ⟨k1, v1⟩ := hd
    simp only [alKeys, List.map_cons, List.nodup_cons] at h
    by_cases hk : k1 = k
    · subst hk
      have h2 := alGet_eq_none_of_not_mem tl k1 h.1
      simp [alPop, h2]
    · simp [alPop, alGet, hk, ih h.2]

theorem alSet_cons_eq {α : Type} (tl : List (String × α)) (k : String) (v1 v : α) :
    alSet ((k, v1) :: tl) k v = (k, v) :: tl := by
  simp [alSet]

theorem alSet_cons_ne {α : Type} (tl : List (String × α)) (k1 : String) (v1 : α)
    (k : String) (v : α) (h : ¬ k1 = k) :
    alSet ((k1, v1) :: tl) k v = (k1, v1) :: alSet tl k v := by
  simp [alSet, h]

theorem mem_alKeys_set {α : Type} (d : List (String × α)) (k k' : String) (v : α) :
    k' ∈ alKeys (alSet d k v) ↔ k' = k ∨ k' ∈ alKeys d := by
  induction d with
  | nil => simp [alSet, alKeys]
  | cons hd tl ih =>
    obtain ⟨k1, v1⟩ := hd
    by_cases h : k1 = k
    · subst h
      rw [alSet_cons_eq]
      simp only [alKeys, List.map_cons, List.mem_cons]
      tauto
    · rw [alSet_cons_ne tl k1 v1 k v h]
      simp only [alKeys, List.map_cons, List.mem_cons]
      have ih2 : k' ∈ List.map Prod.fst (alSet tl k v) ↔ k' = k ∨ k' ∈ List.map Prod.fst tl := ih
      rw [ih2]
      tauto

theorem nodup_alKeys_set {α : Type} (d : List (String × α)) (k : String) (v : α)
    (h : (alKeys d).Nodup) : (alKeys (alSet d k v)).Nodup := by
  induction d with
  | nil => simp [alSet, alKeys]
  | cons hd tl ih =>
    obtain ⟨k1, v1⟩ := hd
    simp only [alKeys, List.map_cons, List.nodup_cons] at h
    by_cases hk : k1 = k
    · subst hk
      rw [alSet_cons_eq]
      simp only [alKeys, List.map_cons, List.nodup_cons]
      exact h
    · rw [alSet_cons_ne tl k1 v1 k v hk]
      simp only [alKeys, List.map_cons, List.nodup_cons]
      refine ⟨fun hmem => ?_, ih h.2⟩
      have hmem2 : k1 ∈ alKeys (alSet tl k v) := hmem
      rcases (mem_alKeys_set tl k k1 v).mp hmem2 with h1 | h1
      · exact hk h1
      · exact h.1 h1

theorem nodup_alKeys_pop {α : Type} (d : List (String × α)) (k : String)
    (h : (alKeys d).Nodup) : (alKeys (alPop d k)).Nodup :=
  (alKeys_pop_sublist d k).nodup h

theorem hasKey_pop_self {α : Type} (d : List (String × α)) (k : String)
    (h : (alKeys d).Nodup) : hasKey (alPop d k) k = false := by
  simp [hasKey, alGet_pop_self d k h]

/-- C1: the spec claims the constructor walks the storage root and reconciles
disk with index. The code does not: constructed over a storage root holding
the file a.txt (five bytes) and a snapshot holding only an entry for the
absent file b.txt, the resulting index has no record for a.txt and still has
the stale entry for b.txt, refuting both halves of the claim at this input. -/
theorem C1_counterexample :
    server_init c1Disk (some c1Snap) true =
      Except.ok { meta := { mem := c1Snap, canonical := some c1Snap, temp := none },
                  disk := c1Disk } ∧
    alGet c1Snap "a.txt" = none ∧ alGet c1Snap "b.txt" = some recB := by
  refine ⟨rfl, by decide, by decide⟩

/-- C1 (amended): construction performs no reconciliation between disk and
index. Whatever the storage root holds, after construction the index is
exactly the parsed snapshot (or the empty mapping, immediately persisted, when
no snapshot file exists); on-disk files without entries are not adopted and
stale entries are not removed, and the storage root is not even inspected. -/
theorem C1_init_loads_snapshot_only (disk : Disk) (d : Dict) :
    server_init disk (some d) true =
      Except.ok { meta := { mem := d, canonical := some d, temp := none }, disk := disk } ∧
    server_init disk none true =
      Except.ok { meta := { mem := [], canonical := some [], temp := none }, disk := disk } :=
  ⟨rfl, rfl⟩

/-- C3: every mutating index operation (add, update, delete) that passes its
guard persists by writing the full serialized snapshot to a temp file and
atomically renaming it onto the canonical path: on success the canonical file
holds exactly the serialized new mapping and no temp file remains; if the temp
write fails, the temp file is removed, the error is surfaced to the caller of
the mutating operation, and the canonical snapshot is untouched. -/
theorem C3_durability (st : MetaState) (op : MetaOp) (writeOk : Bool)
    (hguard : opGuardOk st op = true) :
    (writeOk = true →
      (runMetaOp st op writeOk).1 = Except.ok () ∧
      (runMetaOp st op writeOk).2.canonical = some (runMetaOp st op writeOk).2.mem ∧
      (runMetaOp st op writeOk).2.temp = none) ∧
    (writeOk = false →
      (runMetaOp st op writeOk).1 = Except.error PyErr.ioError ∧
      (runMetaOp st op writeOk).2.canonical = st.canonical ∧
      (runMetaOp st op writeOk).2.temp = none) := by
  cases op with
  | add r =>
    simp only [opGuardOk, Bool.not_eq_true'] at hguard
    cases writeOk <;>
      simp [runMetaOp, add_file_entry, hguard, save_metadata_atomic, write_temp,
        replace_temp, remove_temp]
  | del p =>
    simp only [opGuardOk] at hguard
    cases writeOk <;>
      simp [runMetaOp, delete_file_entry, hguard, save_metadata_atomic, write_temp,
        replace_temp, remove_temp]
  | upd p u now =>
    simp only [opGuardOk, hasKey, Option.isSome_iff_exists] at hguard
    obtain ⟨old, hold⟩ := hguard
    cases writeOk <;>
      simp [runMetaOp, update_file_entry, hold, save_metadata_atomic, write_temp,
        replace_temp, remove_temp]

/-- C3 witness: a failing temp write during a concrete delete surfaces the
error while leaving the canonical snapshot untouched. -/
theorem C3_durability_witness :
    (runMetaOp stA (MetaOp.del "a") false).1 = Except.error PyErr.ioError ∧
    (runMetaOp stA (MetaOp.del "a") false).2.canonical = stA.canonical :=
  ⟨((C3_durability stA (MetaOp.del "a") false (by decide)).2 rfl).1,
   ((C3_durability stA (MetaOp.del "a") false (by decide)).2 rfl).2.1⟩

/-- C4: the spec claims batch insert silently skips already-present paths.
The code's add_file_entry instead raises ValueError on a duplicate path: at
this concrete input the insert of an already-present path returns an error
rather than succeeding without effect. -/
theorem C4_counterexample :
    add_file_entry stA recA true = (Except.error PyErr.valueError, stA) := by
  decide

/-- C4 (amended): add_file_entry inserts a record whose path is not yet
present and persists the new snapshot once; a record whose path is already
present is rejected with ValueError and the state is left entirely unchanged
(the index is not modified, but the duplicate is an error, not a silent skip;
no batch add_many operation exists). -/
theorem C4_add_rejects_duplicate (st : MetaState) (r : FileMetadata) (writeOk : Bool) :
    (hasKey st.mem r.filepath = true →
      add_file_entry st r writeOk = (Except.error PyErr.valueError, st)) ∧
    (hasKey st.mem r.filepath = false → writeOk = true →
      add_file_entry st r writeOk =
        (Except.ok (), { mem := alSet st.mem r.filepath r,
                         canonical := some (alSet st.mem r.filepath r),
                         temp := none })) := by
  constructor
  · intro h
    simp [add_file_entry, h]
  · intro h hw
    subst hw
    simp [add_file_entry, h, save_metadata_atomic, write_temp, replace_temp]

/-- C4 witness: the amended theorem applied to a concrete duplicate insert and
to a concrete fresh insert. -/
theorem C4_add_rejects_duplicate_witness :
    add_file_entry stA recA true = (Except.error PyErr.valueError, stA) ∧
    add_file_entry stA recB true =
      (Except.ok (), { mem := [("a", recA), ("b.txt", recB)],
                       canonical := some [("a", recA), ("b.txt", recB)],
                       temp := none }) :=
  ⟨(C4_add_rejects_duplicate stA recA true).1 (by decide),
   by
    have h := (C4_add_rejects_duplicate stA recB true).2 (by decide) rfl
    simpa [stA, alSet, recB, recA] using h⟩

-- Helper lemmas for the C10 invariant.

theorem save_mem_eq (st : MetaState) (w : Bool) :
    (save_metadata_atomic st w).2.mem = st.mem := by
  cases w <;> simp [save_metadata_atomic, write_temp, replace_temp, remove_temp]

theorem keysAgree_set (mem : Dict) (k : String) (r : FileMetadata)
    (hka : KeysAgree mem) (hr : r.filepath = k) : KeysAgree (alSet mem k r) := by
  intro p r' hget
  by_cases hp : p = k
  · subst hp
    rw [alGet_set_self] at hget
    injection hget with h2
    rw [← h2]
    exact hr
  · rw [alGet_set_ne mem k p r hp] at hget
    exact hka p r' hget

theorem keysAgree_pop (mem : Dict) (k : String)
    (hka : KeysAgree mem) (hnd : (alKeys mem).Nodup) : KeysAgree (alPop mem k) := by
  intro p r' hget
  by_cases hp : p = k
  · subst hp
    rw [alGet_pop_self mem p hnd] at hget
    cases hget
  · rw [alGet_pop_ne mem k p hp] at hget
    exact hka p r' hget

theorem memInv_step (st : MetaState) (op : MetaOp) (w : Bool)
    (hinv : MemInv st.mem) (hop : goodOp op) : MemInv (runMetaOp st op w).2.mem := by
  obtain ⟨hka, hnd⟩ := hinv
  cases op with
  | add r =>
    cases hb : hasKey st.mem r.filepath with
    | true => simpa [runMetaOp, add_file_entry, hb] using ⟨hka, hnd⟩
    | false =>
      have hm : (runMetaOp st (MetaOp.add r) w).2.mem = alSet st.mem r.filepath r := by
        simp [runMetaOp, add_file_entry, hb, save_mem_eq]
      rw [hm]
      exact ⟨keysAgree_set st.mem r.filepath r hka rfl,
             nodup_alKeys_set st.mem r.filepath r hnd⟩
  | del p =>
    cases hb : hasKey st.mem p with
    | false => simpa [runMetaOp, delete_file_entry, hb] using ⟨hka, hnd⟩
    | true =>
      have hm : (runMetaOp st (MetaOp.del p) w).2.mem = alPop st.mem p := by
        simp [runMetaOp, delete_file_entry, hb, save_mem_eq]
      rw [hm]
      exact ⟨keysAgree_pop st.mem p hka hnd, nodup_alKeys_pop st.mem p hnd⟩
  | upd p u now =>
    cases hg : alGet st.mem p with
    | none => simpa [runMetaOp, update_file_entry, hg] using ⟨hka, hnd⟩
    | some old =>
      have hofp : old.filepath = p := hka p old hg
      cases hu : u.filepath with
      | none =>
        have hm : (runMetaOp st (MetaOp.upd p u now) w).2.mem =
            alSet st.mem p { applyUpdates old u with updated_at := now } := by
          simp [runMetaOp, update_file_entry, hg, hu, save_mem_eq]
        rw [hm]
        refine ⟨keysAgree_set st.mem p _ hka ?_, nodup_alKeys_set st.mem p _ hnd⟩
        simp [applyUpdates, hu, hofp]
      | some nf =>
        have hnf : nf ≠ "" := by
          rcases hop with h1 | ⟨s, hs, hse⟩
          · rw [hu] at h1
            cases h1
          · rw [hu] at hs
            injection hs with h2
            rw [h2]
            exact hse
        by_cases hnfp : nf = p
        · have hm : (runMetaOp st (MetaOp.upd p u now) w).2.mem =
              alSet st.mem p { applyUpdates old u with updated_at := now } := by
            simp [runMetaOp, update_file_entry, hg, hu, hnfp, save_mem_eq]
          rw [hm]
          refine ⟨keysAgree_set st.mem p _ hka ?_, nodup_alKeys_set st.mem p _ hnd⟩
          simp [applyUpdates, hu, hnfp]
        · have hm : (runMetaOp st (MetaOp.upd p u now) w).2.mem =
              alSet (alPop (alSet st.mem p { applyUpdates old u with updated_at := now }) p)
                nf { applyUpdates old u with updated_at := now } := by
            simp [runMetaOp, update_file_entry, hg, hu, hnf, hnfp, save_mem_eq]
          rw [hm]
          have hnd1 : (alKeys (alSet st.mem p { applyUpdates old u with updated_at := now })).Nodup :=
            nodup_alKeys_set st.mem p _ hnd
          constructor
          · intro q r' hget
            by_cases hq : q = nf
            · subst hq
              rw [alGet_set_self] at hget
              injection hget with h2
              rw [← h2]
              simp [applyUpdates, hu]
            · rw [alGet_set_ne _ nf q _ hq] at hget
              by_cases hqp : q = p
              · subst hqp
                rw [alGet_pop_self _ q hnd1] at hget
                cases hget
              · rw [alGet_pop_ne _ p q hqp, alGet_set_ne _ p q _ hqp] at hget
                exact hka q r' hget
          · exact nodup_alKeys_set _ nf _ (nodup_alKeys_pop _ p hnd1)

/-- C10: the spec claims key-record agreement in every reachable state. An
update whose requested new path is the empty string refutes it: Python
truthiness skips the re-keying branch while the merge still writes the empty
path into the stored record, so after adding a record at path a and updating
it with an empty-string filepath, key a holds a record whose filepath field is
the empty string. -/
theorem C10_counterexample :
    alGet (runOps st0 c10Ops).mem "a" = some recEmptyPath ∧
    recEmptyPath.filepath ≠ "a" ∧ ¬ KeysAgree (runOps st0 c10Ops).mem := by
  refine ⟨by decide, by decide, fun h => ?_⟩
  have h2 := h "a" recEmptyPath (by decide)
  exact absurd h2 (by decide)

/-- C10 (amended): key-record agreement holds in every state reachable by
add, update and delete calls in which no update requests the empty string as
the new filepath (together with distinctness of keys): every key of the
in-memory mapping stores a record whose filepath equals that key, and after a
re-keying update the record under the new key carries the new path. -/
theorem C10_key_agreement (ops : List (MetaOp × Bool)) (st : MetaState)
    (hinv : MemInv st.mem) (hops : ∀ x ∈ ops, goodOp x.1) :
    MemInv (runOps st ops).mem := by
  induction ops generalizing st with
  | nil => simpa [runOps] using hinv
  | cons hd tl ih =>
    obtain ⟨op, w⟩ := hd
    simp only [runOps]
    refine ih (runMetaOp st op w).2 ?_ ?_
    · exact memInv_step st op w hinv (hops _ (List.mem_cons_self _ _))
    · intro x hx
      exact hops x (List.mem_cons_of_mem _ hx)

/-- C10 witness: the amended invariant applied to a concrete benign run that
adds a record and renames it to a nonempty path. -/
theorem C10_key_agreement_witness :
    MemInv (runOps st0 [(MetaOp.add recA, true),
      (MetaOp.upd "a" (tagsAndPathUpdate [] (some "b")) "t1", true)]).mem := by
  refine C10_key_agreement _ st0 ⟨?_, ?_⟩ ?_
  · intro p r h
    simp [st0, alGet] at h
  · simp [st0, alKeys]
  · intro x hx
    rcases List.mem_cons.mp hx with h1 | h1
    · rw [h1]
      trivial
    · rcases List.mem_cons.mp h1 with h2 | h2
      · rw [h2]
        right
        exact ⟨"b", rfl, by decide⟩
      · cases h2

-- Bridging lemma for the upload loop.

theorem uploadLoop_tooBig_iff (cap : Nat) (chunks : List Nat) (acc n : Nat) :
    uploadLoop cap acc chunks = UploadOutcome.tooBig n ↔
      (cumSums acc (chunks.takeWhile (fun c => c != 0))).find?
        (fun s => decide (cap < s)) = some n := by
  induction chunks generalizing acc with
  | nil => simp [uploadLoop, cumSums]
  | cons c rest ih =>
    by_cases hc : c = 0
    · subst hc
      simp [uploadLoop, cumSums]
    · by_cases hlt : cap < acc + c
      · simp [uploadLoop, hc, hlt, cumSums, List.find?]
      · simp only [uploadLoop, if_neg hc, if_neg hlt]
        rw [ih (acc + c)]
        have hle : ¬ (decide (cap < acc + c) = true) := by simpa using hlt
        simp [cumSums, List.find?, hc, hle]

/-- C5: an upload to an unindexed path whose cumulative streamed size crosses
the configured byte cap aborts at the first read that crosses it (the reported
size is the first cumulative total exceeding the cap), the partial file is
unlinked, the policy error (ResponseCode BAD_REQUEST, the code's rendering of
TooLarge) is surfaced, and afterwards there is neither a file on disk nor an
index entry for that path; the metadata state is entirely untouched. -/
theorem C5_upload_cap (st : ServerState) (cfg : StorageConfig) (p : String)
    (ct guessed : Option String) (chunks : List Nat) (saveOk : Bool) (now : String)
    (n : Nat)
    (hidx : hasKey st.meta.mem p = false)
    (hdnd : (alKeys st.disk).Nodup)
    (hex : (cumSums 0 (chunks.takeWhile (fun c => c != 0))).find?
      (fun s => decide (maxFileSizeBytes cfg < s)) = some n) :
    (post_file st cfg p ct guessed chunks true saveOk now).1.code = RC.BAD_REQUEST ∧
    (post_file st cfg p ct guessed chunks true saveOk now).1.size = n ∧
    diskHas (post_file st cfg p ct guessed chunks true saveOk now).2.disk p = false ∧
    hasKey (post_file st cfg p ct guessed chunks true saveOk now).2.meta.mem p = false ∧
    (post_file st cfg p ct guessed chunks true saveOk now).2.meta = st.meta := by
  have hloop : uploadLoop (maxFileSizeBytes cfg) 0 chunks = UploadOutcome.tooBig n :=
    (uploadLoop_tooBig_iff (maxFileSizeBytes cfg) chunks 0 n).mpr hex
  have hd2 : diskHas (alPop st.disk p) p = false := hasKey_pop_self st.disk p hdnd
  simp [post_file, hidx, hloop, hd2]

/-- C5 witness: a two hundred megabyte single read against the default one
hundred megabyte cap on a fresh server. -/
theorem C5_upload_cap_witness :
    (post_file emptyServer defCfg "big.bin" none none [209715200] true true "t0").1.code
      = RC.BAD_REQUEST ∧
    (post_file emptyServer defCfg "big.bin" none none [209715200] true true "t0").1.size
      = 209715200 :=
  ⟨(C5_upload_cap emptyServer defCfg "big.bin" none none [209715200] true "t0" 209715200
      (by decide) (by decide) (by decide)).1,
   (C5_upload_cap emptyServer defCfg "big.bin" none none [209715200] true "t0" 209715200
      (by decide) (by decide) (by decide)).2.1⟩

/-- C8: delete_file answers NOT_FOUND exactly when the path is not indexed;
when indexed it removes the disk file, tolerating an already-absent disk file
without error, then removes the index entry; when the disk unlink raises, the
call answers with an internal error before touching the index, leaving index
and disk exactly as they were. -/
theorem C8_delete (st : ServerState) (p : String) (unlinkOk saveOk : Bool)
    (hnd : (alKeys st.meta.mem).Nodup) (hdnd : (alKeys st.disk).Nodup) :
    ((delete_file st p unlinkOk saveOk).1.code = RC.NOT_FOUND ↔
      hasKey st.meta.mem p = false) ∧
    (hasKey st.meta.mem p = true → diskHas st.disk p = true → unlinkOk = false →
      (delete_file st p unlinkOk saveOk).1.code = RC.INTERNAL_SERVER_ERROR ∧
      (delete_file st p unlinkOk saveOk).2 = st) ∧
    (hasKey st.meta.mem p = true → diskHas st.disk p = false → saveOk = true →
      (delete_file st p unlinkOk saveOk).1.code = RC.OK ∧
      hasKey (delete_file st p unlinkOk saveOk).2.meta.mem p = false ∧
      (delete_file st p unlinkOk saveOk).2.meta.canonical =
        some (delete_file st p unlinkOk saveOk).2.meta.mem ∧
      (delete_file st p unlinkOk saveOk).2.disk = st.disk) ∧
    (hasKey st.meta.mem p = true → diskHas st.disk p = true → unlinkOk = true →
        saveOk = true →
      (delete_file st p unlinkOk saveOk).1.code = RC.OK ∧
      diskHas (delete_file st p unlinkOk saveOk).2.disk p = false ∧
      hasKey (delete_file st p unlinkOk saveOk).2.meta.mem p = false ∧
      (delete_file st p unlinkOk saveOk).2.meta.canonical =
        some (delete_file st p unlinkOk saveOk).2.meta.mem) := by
  have hmempop : hasKey (alPop st.meta.mem p) p = false := hasKey_pop_self st.meta.mem p hnd
  refine ⟨?_, ?_, ?_, ?_⟩
  · cases hmem : hasKey st.meta.mem p with
    | false => simp [delete_file, hmem]
    | true =>
      cases hdisk : diskHas st.disk p <;> cases unlinkOk <;> cases saveOk <;>
        simp [delete_file, hmem, hdisk, delete_file_entry, save_metadata_atomic,
          write_temp, replace_temp, remove_temp]
  · intro hmem hdisk hu
    subst hu
    cases saveOk <;>
      simp [delete_file, hmem, hdisk, delete_file_entry, save_metadata_atomic,
        write_temp, replace_temp, remove_temp]
  · intro hmem hdisk hs
    subst hs
    simp [delete_file, hmem, hdisk, delete_file_entry, save_metadata_atomic,
      write_temp, replace_temp, remove_temp, hmempop]
  · intro hmem hdisk hu hs
    subst hu
    subst hs
    have hdiskpop : diskHas (alPop st.disk p) p = false := hasKey_pop_self st.disk p hdnd
    simp [delete_file, hmem, hdisk, delete_file_entry, save_metadata_atomic,
      write_temp, replace_temp, remove_temp, hmempop, hdiskpop]

-- Lemmas on the tag-set computation of patch_file.

theorem mem_foldl_insertValid (cfg : StorageConfig) (adds : List String)
    (s : Finset String) (t : String) :
    t ∈ adds.foldl
        (fun s0 u => if u.length ≤ cfg.max_tag_length then insert u s0 else s0) s ↔
      t ∈ s ∨ (t ∈ adds ∧ t.length ≤ cfg.max_tag_length) := by
  induction adds generalizing s with
  | nil => simp
  | cons a rest ih =>
    simp only [List.foldl_cons]
    by_cases ha : a.length ≤ cfg.max_tag_length
    · rw [if_pos ha, ih]
      constructor
      · rintro (hts | hrest)
        · rcases Finset.mem_insert.mp hts with rfl | hs
          · exact Or.inr ⟨List.mem_cons_self _ _, ha⟩
          · exact Or.inl hs
        · exact Or.inr ⟨List.mem_cons_of_mem a hrest.1, hrest.2⟩
      · rintro (hs | ⟨hmem, hlen⟩)
        · exact Or.inl (Finset.mem_insert_of_mem hs)
        · rcases List.mem_cons.mp hmem with rfl | hr
          · exact Or.inl (Finset.mem_insert_self t s)
          · exact Or.inr ⟨hr, hlen⟩
    · rw [if_neg ha, ih]
      constructor
      · rintro (hs | ⟨hmem, hlen⟩)
        · exact Or.inl hs
        · exact Or.inr ⟨List.mem_cons_of_mem a hmem, hlen⟩
      · rintro (hs | ⟨hmem, hlen⟩)
        · exact Or.inl hs
        · rcases List.mem_cons.mp hmem with rfl | hr
          · exact absurd hlen ha
          · exact Or.inr ⟨hr, hlen⟩

theorem mem_foldl_erase (rems : List String) (s : Finset String) (t : String) :
    t ∈ rems.foldl Finset.erase s ↔ t ∈ s ∧ t ∉ rems := by
  induction rems generalizing s with
  | nil => simp
  | cons a rest ih =>
    simp only [List.foldl_cons]
    rw [ih, Finset.mem_erase]
    constructor
    · rintro ⟨⟨hta, hts⟩, hnr⟩
      refine ⟨hts, fun hmem => ?_⟩
      rcases List.mem_cons.mp hmem with rfl | hr
      · exact hta rfl
      · exact hnr hr
    · rintro ⟨hts, hnmem⟩
      refine ⟨⟨fun hh => hnmem ?_, hts⟩, fun hr => hnmem (List.mem_cons_of_mem a hr)⟩
      rw [hh]
      exact List.mem_cons_self a rest

theorem mem_computeNewTags (cfg : StorageConfig) (current : Finset String)
    (adds rems : List String) (t : String) :
    t ∈ computeNewTags cfg current adds rems ↔
      (t ∈ current ∨ (t ∈ adds ∧ t.length ≤ cfg.max_tag_length)) ∧ t ∉ rems := by
  unfold computeNewTags
  rw [mem_foldl_erase, mem_foldl_insertValid]

/-- C6: for a patch on an indexed path, a requested added tag longer than the
configured maximum is silently skipped while the other requested additions and
all requested removals are applied (membership characterisation of the
computed set); if the computed set is larger than the per-file maximum the
call answers BAD_REQUEST, changes nothing and reports the original tag set
back; otherwise (here for a pure tag update with persistence succeeding) the
computed set is applied to the stored record and reported back with OK. -/
theorem C6_patch_tag_policy (st : ServerState) (cfg : StorageConfig) (p : String)
    (req : PatchReq) (renameOk rollbackOk saveOk : Bool) (now : String)
    (r : FileMetadata) (hmem : alGet st.meta.mem p = some r) :
    (∀ t, t ∈ computeNewTags cfg r.tags.toFinset req.add_tags req.remove_tags ↔
      ((t ∈ r.tags ∨ (t ∈ req.add_tags ∧ t.length ≤ cfg.max_tag_length)) ∧
        t ∉ req.remove_tags)) ∧
    (cfg.max_tags_per_file <
        (computeNewTags cfg r.tags.toFinset req.add_tags req.remove_tags).card →
      (patch_file st cfg p req renameOk rollbackOk saveOk now).1.code = RC.BAD_REQUEST ∧
      (patch_file st cfg p req renameOk rollbackOk saveOk now).1.tags = r.tags.toFinset ∧
      (patch_file st cfg p req renameOk rollbackOk saveOk now).2 = st) ∧
    ((computeNewTags cfg r.tags.toFinset req.add_tags req.remove_tags).card ≤
        cfg.max_tags_per_file →
      req.new_filepath = none → saveOk = true →
      (patch_file st cfg p req renameOk rollbackOk saveOk now).1.code = RC.OK ∧
      (patch_file st cfg p req renameOk rollbackOk saveOk now).1.tags =
        computeNewTags cfg r.tags.toFinset req.add_tags req.remove_tags ∧
      (alGet (patch_file st cfg p req renameOk rollbackOk saveOk now).2.meta.mem p).map
          (fun rec => rec.tags.toFinset) =
        some (computeNewTags cfg r.tags.toFinset req.add_tags req.remove_tags)) := by
  refine ⟨?_, ?_, ?_⟩
  · intro t
    rw [mem_computeNewTags]
    simp [List.mem_toFinset]
  · intro hcard
    simp [patch_file, hmem, hcard]
  · intro hcard hno hs
    subst hs
    have hnlt : ¬ cfg.max_tags_per_file <
        (computeNewTags cfg r.tags.toFinset req.add_tags req.remove_tags).card :=
      Nat.not_lt.mpr hcard
    simp [patch_file, hmem, hnlt, hno, patchFinish, tagsAndPathUpdate,
      update_file_entry, save_metadata_atomic, write_temp, replace_temp,
      alGet_set_self, applyUpdates, enumTags, Finset.sort_toFinset]

/-- C6 witness: patching the record tagged x with a fifty-one character tag
and the tag y while removing x yields exactly the set holding y, applied and
reported with OK. -/
theorem C6_patch_tag_policy_witness :
    ("y" ∈ computeNewTags defCfg recT.tags.toFinset [longTag, "y"] ["x"] ∧
     longTag ∉ computeNewTags defCfg recT.tags.toFinset [longTag, "y"] ["x"] ∧
     "x" ∉ computeNewTags defCfg recT.tags.toFinset [longTag, "y"] ["x"]) ∧
    (patch_file srvT defCfg "t.txt"
        { new_filepath := none, add_tags := [longTag, "y"], remove_tags := ["x"] }
        true true true "t1").1.code = RC.OK := by
  have h := C6_patch_tag_policy srvT defCfg "t.txt"
    { new_filepath := none, add_tags := [longTag, "y"], remove_tags := ["x"] }
    true true true "t1" recT (by decide)
  refine ⟨⟨(h.1 "y").mpr (by decide), ?_, ?_⟩, (h.2.2 (by decide) rfl rfl).1⟩
  · intro hmem
    exact absurd ((h.1 longTag).mp hmem) (by decide)
  · intro hmem
    exact absurd ((h.1 "x").mp hmem) (by decide)

/-- C7: the spec claims the rename step applies only when the requested new
path differs from the current one, so that a patch whose new path equals the
current path does not fail with Conflict. The code enters the rename branch
for any truthy new path and immediately finds the destination indexed (it is
the path itself), answering Conflict: refuted at this concrete input. -/
theorem C7_counterexample :
    (patch_file srvT defCfg "t.txt"
        { new_filepath := some "t.txt", add_tags := [], remove_tags := [] }
        true true true "t1").1.code = RC.CONFLICT ∧
    (patch_file srvT defCfg "t.txt"
        { new_filepath := some "t.txt", add_tags := [], remove_tags := [] }
        true true true "t1").2 = srvT := by
  constructor
  · decide
  · decide

/-- C7 (amended): the rename branch triggers for any nonempty requested new
path, even one equal to the current path; since the current path is itself
indexed, renaming to the same path fails with Conflict, and more generally any
patch whose requested destination is already indexed fails with Conflict with
the original state (file, index entry, tags) left completely untouched and the
original path and tag set reported back. -/
theorem C7_conflict_on_indexed_destination (st : ServerState) (cfg : StorageConfig)
    (p nf : String) (req : PatchReq) (renameOk rollbackOk saveOk : Bool) (now : String)
    (r : FileMetadata) (hmem : alGet st.meta.mem p = some r)
    (hcard : (computeNewTags cfg r.tags.toFinset req.add_tags req.remove_tags).card ≤
      cfg.max_tags_per_file)
    (hnf : req.new_filepath = some nf) (hne : nf ≠ "")
    (hdest : hasKey st.meta.mem nf = true) :
    (patch_file st cfg p req renameOk rollbackOk saveOk now).1.code = RC.CONFLICT ∧
    (patch_file st cfg p req renameOk rollbackOk saveOk now).1.filepath = p ∧
    (patch_file st cfg p req renameOk rollbackOk saveOk now).1.tags = r.tags.toFinset ∧
    (patch_file st cfg p req renameOk rollbackOk saveOk now).2 = st := by
  have hnlt : ¬ cfg.max_tags_per_file <
      (computeNewTags cfg r.tags.toFinset req.add_tags req.remove_tags).card :=
    Nat.not_lt.mpr hcard
  simp [patch_file, hmem, hnlt, hnf, hne, hdest]

/-- C7 witness: renaming onto a different already-indexed destination leaves
everything untouched and answers Conflict. -/
theorem C7_conflict_witness :
    (patch_file srv2 defCfg "t.txt"
        { new_filepath := some "u.txt", add_tags := [], remove_tags := [] }
        true true true "t1").1.code = RC.CONFLICT ∧
    (patch_file srv2 defCfg "t.txt"
        { new_filepath := some "u.txt", add_tags := [], remove_tags := [] }
        true true true "t1").2 = srv2 := by
  have h := C7_conflict_on_indexed_destination srv2 defCfg "t.txt" "u.txt"
    { new_filepath := some "u.txt", add_tags := [], remove_tags := [] }
    true true true "t1" recT (by decide) (by decide) rfl (by decide) (by decide)
  exact ⟨h.1, h.2.2.2⟩

theorem patchFinish_error (meta0 : MetaState) (disk1 : Disk) (p nf : String)
    (newT curT : Finset String) (rollbackOk saveOk : Bool) (now : String)
    (e : PyErr) (m1 : MetaState)
    (hnp : nf ≠ p)
    (hupd : update_file_entry meta0 p
        (tagsAndPathUpdate (enumTags newT) (some nf)) now saveOk =
      (Except.error e, m1)) :
    patchFinish meta0 disk1 p nf newT curT rollbackOk saveOk now =
      ({ code := RC.INTERNAL_SERVER_ERROR, success := false, filepath := p,
         tags := curT },
       { meta := m1,
         disk := if rollbackOk ∧ diskHas disk1 nf then diskRename disk1 nf p
                 else disk1 }) := by
  simp only [patchFinish]
  rw [if_pos hnp, hupd]
  dsimp only
  rw [if_pos hnp]

/-- C2: the spec claims that after a failed index update the rename is rolled
back and the index still reports the record under the original path. The disk
rollback does happen, but a persistence failure inside update_file_entry
strikes after the in-memory mapping was already re-keyed: at this concrete
input the call answers an internal error and the disk file is back at path a,
yet the in-memory index no longer has any entry under a (the record sits under
b), refuting the claim that the index still reports the original path. -/
theorem C2_counterexample :
    (patch_file srvA defCfg "a" renameReq true true false "t1").1.code =
      RC.INTERNAL_SERVER_ERROR ∧
    alGet (patch_file srvA defCfg "a" renameReq true true false "t1").2.disk "a" =
      some 3 ∧
    alGet (patch_file srvA defCfg "a" renameReq true true false "t1").2.meta.mem "a" =
      none ∧
    (patch_file srvA defCfg "a" renameReq true true false "t1").2.meta.canonical =
      some [("a", recA)] := by
  refine ⟨by decide, by decide, by decide, by decide⟩

/-- C2 (amended): when the index-update step of a patch fails after a
successful disk rename, the call returns an internal error whether or not the
best-effort rollback succeeds (a rollback failure never replaces the original
error); when the rollback rename succeeds the disk file is back at its
original path; the persisted snapshot is untouched, so it still reports the
record under the original path whenever it did before — but the in-memory
mapping has already been re-keyed: it has no entry under the original path and
reports the record under the new path. -/
theorem C2_rollback_keeps_snapshot (st : ServerState) (cfg : StorageConfig)
    (p nf : String) (adds rems : List String) (rollbackOk : Bool) (now : String)
    (r : FileMetadata)
    (hmem : alGet st.meta.mem p = some r)
    (hnd : (alKeys st.meta.mem).Nodup)
    (hcard : (computeNewTags cfg r.tags.toFinset adds rems).card ≤
      cfg.max_tags_per_file)
    (hne : nf ≠ "")
    (hdest : hasKey st.meta.mem nf = false)
    (hdisk : diskHas st.disk p = true) :
    (patch_file st cfg p
        { new_filepath := some nf, add_tags := adds, remove_tags := rems }
        true rollbackOk false now).1.code = RC.INTERNAL_SERVER_ERROR ∧
    (rollbackOk = true →
      alGet (patch_file st cfg p
          { new_filepath := some nf, add_tags := adds, remove_tags := rems }
          true rollbackOk false now).2.disk p = alGet st.disk p) ∧
    (patch_file st cfg p
        { new_filepath := some nf, add_tags := adds, remove_tags := rems }
        true rollbackOk false now).2.meta.canonical = st.meta.canonical ∧
    alGet (patch_file st cfg p
        { new_filepath := some nf, add_tags := adds, remove_tags := rems }
        true rollbackOk false now).2.meta.mem p = none ∧
    hasKey (patch_file st cfg p
        { new_filepath := some nf, add_tags := adds, remove_tags := rems }
        true rollbackOk false now).2.meta.mem nf = true := by
  have hnfp : nf ≠ p := by
    intro hh
    rw [hh, hasKey, hmem] at hdest
    simp at hdest
  have hpnf : ¬ p = nf := fun hh => hnfp hh.symm
  have hdisk2 : (alGet st.disk p).isSome = true := hdisk
  obtain ⟨sz, hsz⟩ := Option.isSome_iff_exists.mp hdisk2
  have hnlt : ¬ cfg.max_tags_per_file <
      (computeNewTags cfg r.tags.toFinset adds rems).card :=
    Nat.not_lt.mpr hcard
  have hstep1 : patch_file st cfg p
      { new_filepath := some nf, add_tags := adds, remove_tags := rems }
      true rollbackOk false now =
      patchFinish st.meta (diskRename st.disk p nf) p nf
        (computeNewTags cfg r.tags.toFinset adds rems) r.tags.toFinset
        rollbackOk false now := by
    simp [patch_file, hmem, hnlt, hne, hdest, hdisk]
  set mrec : FileMetadata :=
    { filepath := nf, mime_type := r.mime_type, size := r.size,
      tags := enumTags (computeNewTags cfg r.tags.toFinset adds rems),
      uploaded_at := r.uploaded_at, updated_at := now } with hmrec
  have hupd : update_file_entry st.meta p
      (tagsAndPathUpdate
        (enumTags (computeNewTags cfg r.tags.toFinset adds rems)) (some nf)) now false =
      (Except.error PyErr.ioError,
        { mem := alSet (alPop (alSet st.meta.mem p mrec) p) nf mrec,
          canonical := st.meta.canonical, temp := none }) := by
    simp [update_file_entry, hmem, tagsAndPathUpdate, applyUpdates, hne, hnfp,
      save_metadata_atomic, write_temp, remove_temp, hmrec]
  have hdisk1 : diskRename st.disk p nf = alSet (alPop st.disk p) nf sz := by
    simp [diskRename, hsz]
  have hh1 : diskHas (diskRename st.disk p nf) nf = true := by
    rw [hdisk1]
    simp [diskHas, hasKey, alGet_set_self]
  rw [hstep1,
    patchFinish_error st.meta (diskRename st.disk p nf) p nf
      (computeNewTags cfg r.tags.toFinset adds rems) r.tags.toFinset
      rollbackOk false now PyErr.ioError
      { mem := alSet (alPop (alSet st.meta.mem p mrec) p) nf mrec,
        canonical := st.meta.canonical, temp := none } hnfp hupd]
  refine ⟨rfl, ?_, rfl, ?_, ?_⟩
  · intro hro
    subst hro
    simp only [hh1, true_and, if_true, if_pos]
    rw [hdisk1, diskRename, alGet_set_self]
    rw [alGet_set_self, hsz]
  · rw [alGet_set_ne _ nf p mrec hpnf]
    exact alGet_pop_self _ p (nodup_alKeys_set st.meta.mem p mrec hnd)
  · simp [hasKey, alGet_set_self]

/-- C2 witness: the amended theorem at the concrete renamed record, rollback
succeeding. -/
theorem C2_rollback_keeps_snapshot_witness :
    (patch_file srvA defCfg "a" renameReq true true false "t1").1.code =
      RC.INTERNAL_SERVER_ERROR ∧
    alGet (patch_file srvA defCfg "a" renameReq true true false "t1").2.disk "a" =
      alGet srvA.disk "a" := by
  have h := C2_rollback_keeps_snapshot srvA defCfg "a" "b" [] [] true "t1" recA
    (by decide) (by decide) (by decide) (by decide) (by decide) (by decide)
  exact ⟨h.1, h.2.1 rfl⟩

/-- C8 witness: deleting an indexed path whose file is on disk, with both
system calls succeeding, removes file and entry. -/
theorem C8_delete_witness :
    (delete_file srvA "a" true true).1.code = RC.OK ∧
    diskHas (delete_file srvA "a" true true).2.disk "a" = false ∧
    hasKey (delete_file srvA "a" true true).2.meta.mem "a" = false := by
  have h := (C8_delete srvA "a" true true (by decide) (by decide)).2.2.2
    (by decide) (by decide) rfl rfl
  exact ⟨h.1, h.2.1, h.2.2.1⟩

-- Stability of the sort used by list_files.

theorem contains_iff_mem (l : List String) (t : String) :
    l.contains t = true ↔ t ∈ l :=
  List.elem_iff

theorem filter_orderedInsert_key (a : FileMetadata) (l : List FileMetadata) (k : String) :
    (List.orderedInsert byUploadedDesc a l).filter (fun x => x.uploaded_at == k) =
      if a.uploaded_at == k then a :: l.filter (fun x => x.uploaded_at == k)
      else l.filter (fun x => x.uploaded_at == k) := by
  induction l with
  | nil =>
    cases hak : a.uploaded_at == k <;>
      simp [List.orderedInsert, List.filter, hak]
  | cons b l ih =>
    by_cases hr : byUploadedDesc a b
    · rw [List.orderedInsert_of_le _ _ hr]
      cases hak : a.uploaded_at == k <;> simp [List.filter_cons, hak]
    · have hstep : List.orderedInsert byUploadedDesc a (b :: l) =
          b :: List.orderedInsert byUploadedDesc a l := by
        simp [List.orderedInsert, hr]
      rw [hstep]
      cases hbk : b.uploaded_at == k with
      | false =>
        simp only [List.filter_cons, hbk]
        rw [ih]
        cases hak : a.uploaded_at == k <;> simp [List.filter_cons, hak, hbk]
      | true =>
        have hak : (a.uploaded_at == k) = false := by
          rcases hh : a.uploaded_at == k with _ | _
          · rfl
          · exfalso
            apply hr
            have h1 : a.uploaded_at = k := by simpa using hh
            have h2 : b.uploaded_at = k := by simpa using hbk
            show b.uploaded_at ≤ a.uploaded_at
            rw [h1, h2]
        simp only [List.filter_cons, hbk, hak]
        rw [ih, hak]
        simp [List.filter_cons, hbk]

theorem filter_insertionSort_key (l : List FileMetadata) (k : String) :
    (List.insertionSort byUploadedDesc l).filter (fun x => x.uploaded_at == k) =
      l.filter (fun x => x.uploaded_at == k) := by
  induction l with
  | nil => rfl
  | cons a l ih =>
    simp only [List.insertionSort]
    rw [filter_orderedInsert_key]
    cases hak : a.uploaded_at == k <;> simp [List.filter_cons, hak, ih]

/-- C9: list_files returns exactly the records whose tag list contains the
filter (all records when no filter is given), as the slice of a single ordered
sequence: that sequence is sorted by uploaded_at descending, it is a stable
reordering of the insertion-ordered values (records with equal upload
timestamps keep their insertion order, stated as filter-equality per
timestamp), and pagination drops offset leading entries and caps the result at
limit; an out-of-range offset or limit yields an empty or truncated list, never
an error. -/
theorem C9_list_files (st : MetaState) (tag : Option String) (offset limit : Nat) :
    (list_files st tag offset limit =
      ((List.insertionSort byUploadedDesc
          ((st.mem.map Prod.snd).filter (tagMatches tag))).drop offset).take limit) ∧
    (∀ rcd, rcd ∈ List.insertionSort byUploadedDesc
        ((st.mem.map Prod.snd).filter (tagMatches tag)) ↔
      (rcd ∈ st.mem.map Prod.snd ∧ ∀ t, tag = some t → t ∈ rcd.tags)) ∧
    List.Sorted byUploadedDesc
      (List.insertionSort byUploadedDesc
        ((st.mem.map Prod.snd).filter (tagMatches tag))) ∧
    (∀ k, (List.insertionSort byUploadedDesc
          ((st.mem.map Prod.snd).filter (tagMatches tag))).filter
            (fun x => x.uploaded_at == k) =
        ((st.mem.map Prod.snd).filter (tagMatches tag)).filter
          (fun x => x.uploaded_at == k)) ∧
    (list_files st tag offset limit).length ≤ limit ∧
    ((List.insertionSort byUploadedDesc
        ((st.mem.map Prod.snd).filter (tagMatches tag))).length ≤ offset →
      list_files st tag offset limit = []) := by
  refine ⟨rfl, ?_, ?_, ?_, ?_, ?_⟩
  · intro rcd
    rw [List.mem_insertionSort, List.mem_filter]
    cases tag with
    | none => simp [tagMatches]
    | some t =>
      simp only [tagMatches, Option.some.injEq]
      rw [contains_iff_mem]
      constructor
      · rintro ⟨hm, ht⟩
        refine ⟨hm, fun t2 ht2 => ?_⟩
        rw [← ht2]
        exact ht
      · rintro ⟨hm, ht⟩
        exact ⟨hm, ht t rfl⟩
  · exact List.sorted_insertionSort byUploadedDesc _
  · intro k
    exact filter_insertionSort_key _ k
  · show (((List.insertionSort byUploadedDesc _).drop offset).take limit).length ≤ limit
    rw [List.length_take]
    exact min_le_left _ _
  · intro hoff
    show ((List.insertionSort byUploadedDesc _).drop offset).take limit = []
    rw [List.drop_eq_nil_of_le hoff, List.take_nil]

/-- C9 witness: the theorem instantiated at a concrete index of three records,
filtered on tag x, together with the evaluated result, newest first. -/
theorem C9_list_files_witness :
    (list_files st9 (some "x") 0 100).length ≤ 100 ∧
    list_files st9 (some "x") 0 100 = [recN3, recN1] := by
  refine ⟨(C9_list_files st9 (some "x") 0 100).2.2.2.2.1, ?_⟩
  have hfilt : (st9.mem.map Prod.snd).filter (tagMatches (some "x")) = [recN1, recN3] := by
    decide
  have hcmp : ¬ byUploadedDesc recN1 recN3 := by
    show ¬ (recN3.uploaded_at ≤ recN1.uploaded_at)
    have e3 : recN3.uploaded_at = "2024-02-01" := rfl
    have e1 : recN1.uploaded_at = "2024-01-01" := rfl
    rw [e3, e1, String.le_iff_toList_le]
    decide
  have hsort : List.insertionSort byUploadedDesc [recN1, recN3] = [recN3, recN1] := by
    simp [List.insertionSort, List.orderedInsert, hcmp]
  show ((List.insertionSort byUploadedDesc
      ((st9.mem.map Prod.snd).filter (tagMatches (some "x")))).drop 0).take 100 =
    [recN3, recN1]
  rw [hfilt, hsort]
  rfl
